import Mathlib

/-!
Verification development for the workout-tracker application
(src/app/index.tsx). The data model and the store operations of the
source file are embedded shallowly: JavaScript objects used as string
keyed dictionaries become association lists kept in insertion order
(matching the iteration order of Object.keys for the non numeric keys
this program uses), arrays become Lean lists, and JavaScript numbers
produced by parseInt and parseFloat are modelled as Int and Rat.
-/

namespace Workout

/-- Exercise record, from the Exercise interface of the source:
an id string and a display name. -/
structure Exercise where
  id : String
  name : String
deriving DecidableEq

/-- Performance record, from the Performance interface of the source:
ISO date string, sets and reps produced by parseInt (modelled as Int),
weight produced by parseFloat (modelled as Rat), and free form notes. -/
structure Performance where
  date : String
  sets : Int
  reps : Int
  weight : Rat
  notes : String
deriving DecidableEq

/-- A JavaScript object used as a string keyed dictionary, modelled as an
association list in insertion order.  Object.keys returns keys in
insertion order for the keys this program uses (weekday names, week keys
of the form week plus a number, and millisecond timestamp ids, all of
which fall outside the special array index range). -/
abbrev StrMap (α : Type) := List (String × α)

/-- Program: weekday name to ordered list of exercises. -/
abbrev Program := StrMap (List Exercise)

/-- DayHistory: exercise id to ordered list of performances. -/
abbrev DayHistory := StrMap (List Performance)

/-- WeekHistory: weekday name to DayHistory. -/
abbrev WeekHistory := StrMap DayHistory

/-- History: week key to WeekHistory. -/
abbrev History := StrMap WeekHistory

instance : DecidableEq DayHistory := inferInstance

instance : DecidableEq WeekHistory := inferInstance

instance : DecidableEq History := inferInstance

/-- The in-memory state owned by the component: the program and history
React state variables. -/
structure Store where
  program : Program
  history : History

/-- Property read obj[key]: the value at the first occurrence of the key,
none when the key is absent (JavaScript undefined). -/
def getKey {α : Type} : StrMap α → String → Option α
  | [], _ => none
  | (k, v) :: rest, key => if k = key then some v else getKey rest key

/-- Property write obj[key] = v: an existing key keeps its position and
gets the new value; a new key is appended at the end, matching the
insertion order semantics of JavaScript objects. -/
def setKey {α : Type} : StrMap α → String → α → StrMap α
  | [], key, v => [(key, v)]
  | (k, w) :: rest, key, v =>
    if k = key then (key, v) :: rest else (k, w) :: setKey rest key v

/-- Object.keys: the key list in stored order. -/
def keys {α : Type} (m : StrMap α) : List String := m.map Prod.fst

theorem getKey_setKey_self {α : Type} (m : StrMap α) (k : String) (v : α) :
    getKey (setKey m k v) k = some v := by
  induction m with
  | nil => simp [setKey, getKey]
  | cons p rest ih =>
    obtain ⟨k₀, w⟩ := p
    by_cases h : k₀ = k
    · simp [setKey, getKey, h]
    · simp [setKey, getKey, h, ih]

theorem getKey_setKey_ne {α : Type} {m : StrMap α} {k k₀ : String} {v : α}
    (h : k₀ ≠ k) : getKey (setKey m k v) k₀ = getKey m k₀ := by
  induction m with
  | nil => simp [setKey, getKey, Ne.symm h]
  | cons p rest ih =>
    obtain ⟨k₁, w⟩ := p
    by_cases h₁ : k₁ = k
    · subst h₁
      simp [setKey, getKey, Ne.symm h]
    · simp [setKey, getKey, h₁, ih]

/-- Lexicographic comparison of character lists by code point, modelling
the default comparator of Array.prototype.sort, which compares strings
by code unit (identical to code point order on the ASCII week keys this
program sorts). -/
def charListLeb : List Char → List Char → Bool
  | [], _ => true
  | _ :: _, [] => false
  | c :: cs, d :: ds =>
    if c.toNat < d.toNat then true
    else if d.toNat < c.toNat then false
    else charListLeb cs ds

/-- String comparison used by the default Array.prototype.sort. -/
def strLeb (a b : String) : Bool := charListLeb a.data b.data

/-- Insert a string into an already sorted list, ascending under strLeb. -/
def insertSorted (s : String) : List String → List String
  | [] => [s]
  | t :: rest => if strLeb s t then s :: t :: rest else t :: insertSorted s rest

/-- Ascending lexical sort of a string list, modelling keys.sort() with
the default comparator. -/
def sortStrings : List String → List String
  | [] => []
  | s :: rest => insertSorted s (sortStrings rest)

/-- Descending lexical order of a string list, modelling the expression
Object.keys(history).sort().reverse() of getLastPerformance. -/
def sortedDesc (l : List String) : List String := (sortStrings l).reverse

/-- Whitespace test for the characters String.prototype.trim removes
(the forms that occur in this programs inputs). -/
def isSpaceChar (c : Char) : Bool :=
  c = ' ' || c = '\t' || c = '\n' || c = '\r'

/-- Character list with leading and trailing whitespace removed. -/
def trimChars (l : List Char) : List Char :=
  ((l.dropWhile isSpaceChar).reverse.dropWhile isSpaceChar).reverse

/-- Model of String.prototype.trim. -/
def jsTrim (s : String) : String := String.mk (trimChars s.data)

/-- Fixed weekday list of the component, in declaration order. -/
def weekdays : List String :=
  ["Monday", "Tuesday", "Wednesday", "Thursday", "Friday", "Saturday", "Sunday"]

/-- Week number computed by getCurrentWeekNumber.  The wall clock input
is split into its two observations: msSinceJan1 is the millisecond
difference between now and January 1 of the current year, and
jan1Weekday is getDay() of January 1 (0 for Sunday through 6 for
Saturday).  The source computes pastDaysOfYear as the exact quotient of
the millisecond difference by 86400000 (a fractional number of days) and
returns Math.ceil of (pastDaysOfYear + jan1Weekday + 1) / 7; JavaScript
number arithmetic at these magnitudes is modelled by exact rational
arithmetic. -/
def getCurrentWeekNumber (msSinceJan1 : ℕ) (jan1Weekday : ℕ) : ℤ :=
  ⌈(((msSinceJan1 : ℚ) / 86400000) + (jan1Weekday : ℚ) + 1) / 7⌉

/-- Week number formula as the specification states it, with
daysSinceJan1 the (possibly fractional) number of days elapsed since
January 1: ceil of (daysSinceJan1 + weekdayOffsetOfJan1 + 1) / 7. -/
def weekNumberFormula (daysSinceJan1 : ℚ) (weekdayOffsetOfJan1 : ℕ) : ℤ :=
  ⌈(daysSinceJan1 + (weekdayOffsetOfJan1 : ℚ) + 1) / 7⌉

/-- Payload of an AsyncStorage.setItem call: the serialized structure
written under one of the two fixed keys. -/
inductive Blob where
  | progBlob (p : Program)
  | histBlob (h : History)
deriving DecidableEq

/-- Default program built on first run: every weekday bound to an empty
exercise list, in weekday order. -/
def defaultProgram : Program := weekdays.map (fun day => (day, []))

/-- Model of loadData.  The two getItem results are the inputs (none for
an absent blob, with JSON parsing of a present blob modelled as the
identity on the already structured value).  The outputs are the program
and history React state after loadData resolves together with the list
of setItem calls made during initialization, in call order.  When the
program blob is absent the default program is built and written; when
the history blob is absent an empty history is written (the history
state variable keeps its initial empty value). -/
def loadData (savedProgram : Option Program) (savedHistory : Option History) :
    Program × History × List (String × Blob) :=
  match savedProgram, savedHistory with
  | some p, some h => (p, h, [])
  | some p, none => (p, [], [("workoutHistory", Blob.histBlob [])])
  | none, some h =>
      (defaultProgram, h, [("workoutProgram", Blob.progBlob defaultProgram)])
  | none, none =>
      (defaultProgram, [],
        [("workoutProgram", Blob.progBlob defaultProgram),
         ("workoutHistory", Blob.histBlob [])])

/-- Model of Array.prototype.findIndex: the index of the first element
satisfying the predicate, with none standing for the sentinel -1. -/
def findIndex {α : Type} (p : α → Bool) : List α → Option Nat
  | [] => none
  | a :: rest => if p a then some 0 else (findIndex p rest).map (· + 1)

/-- Outcome of the addExercise handler.  invalid is the early return of
the validation guard: an alert is shown, no state is changed and no
setItem call is made.  typeError marks the states in which the source
would throw (reading a property of undefined when the selected day is
not a key of the program), which is unreachable after initialization.
saved p means saveProgram was called with the updated program p. -/
inductive AddOutcome where
  | invalid
  | typeError
  | saved (p : Program)
deriving DecidableEq

/-- Model of addExercise.  Inputs are the form state (exerciseName), the
selected day (null modelled as none), the editing id (null modelled as
none; ids produced by Date.now().toString() are nonempty, so truthiness
of editingExerciseId coincides with presence), the fresh id that
Date.now().toString() returns at this call, and the current program.
The guard rejects a name that is empty after trimming and a null day.
With an editing id the source renames the found exercise in place,
keeping its id and its index, and does nothing when no exercise has
that id; without an editing id it appends a new exercise at the end of
the selected days list. -/
def addExercise (exerciseName : String) (selectedDay : Option String)
    (editingExerciseId : Option String) (newId : String) (program : Program) :
    AddOutcome :=
  match selectedDay with
  | none => AddOutcome.invalid
  | some day =>
    if jsTrim exerciseName = "" then AddOutcome.invalid
    else
      match getKey program day with
      | none => AddOutcome.typeError
      | some dayList =>
        match editingExerciseId with
        | some editingId =>
          match findIndex (fun ex => ex.id == editingId) dayList with
          | some i =>
              AddOutcome.saved (setKey program day
                (List.modify (fun ex => { ex with name := exerciseName }) i dayList))
          | none => AddOutcome.saved program
        | none =>
          AddOutcome.saved (setKey program day
            (dayList ++ [{ id := newId, name := exerciseName }]))

/-- Outcome of the removeExercise handler.  noop is the silent early
return when no day is selected; typeError is the unreachable state where
the selected day is not a key of the program; saved p means saveProgram
was called with the updated program p. -/
inductive RemoveOutcome where
  | noop
  | typeError
  | saved (p : Program)
deriving DecidableEq

/-- Model of removeExercise: the selected days list is replaced by a
fresh filtered array keeping every exercise whose id differs from the
one removed. -/
def removeExercise (selectedDay : Option String) (exerciseId : String)
    (program : Program) : RemoveOutcome :=
  match selectedDay with
  | none => RemoveOutcome.noop
  | some day =>
    match getKey program day with
    | none => RemoveOutcome.typeError
    | some dayList =>
        RemoveOutcome.saved (setKey program day
          (dayList.filter (fun ex => ex.id != exerciseId)))

/-- Core of recordPerformance after validation: lazily creates the
week, day and exercise levels of the history (an absent key is read as
an empty object) and appends the new performance at the end of the
entry list of the exercise. -/
def recordPerformance (history : History) (weekKey dayKey exerciseId : String)
    (performance : Performance) : History :=
  setKey history weekKey
    (setKey ((getKey history weekKey).getD []) dayKey
      (setKey ((getKey ((getKey history weekKey).getD []) dayKey).getD []) exerciseId
        (((getKey ((getKey ((getKey history weekKey).getD []) dayKey).getD [])
            exerciseId).getD []) ++ [performance])))

/-- Outcome of the recordPerformance handler: invalid is the early
return of the validation guard (alert shown, nothing mutated, nothing
saved); saved h means saveHistory was called with the updated history. -/
inductive RecordOutcome where
  | invalid
  | saved (h : History)
deriving DecidableEq

/-- Model of the full recordPerformance handler.  parseIntF and
parseFloatF stand for the JavaScript parseInt and parseFloat builtins,
abstracted as parameters (the guard only checks that sets and reps are
nonempty after trimming, so their exact numeric behaviour is outside
every claim).  The week key is built from the currently viewed week
number, the date field from the current timestamp string, and the
weight field defaults to 0 when the weight form field is the empty
string (the only falsy string). -/
def recordPerformanceSubmit (parseIntF : String → Int) (parseFloatF : String → Rat)
    (sets reps weight notes : String) (selectedDay : Option String)
    (currentExercise : Option Exercise) (currentWeek : ℕ) (now : String)
    (history : History) : RecordOutcome :=
  match selectedDay, currentExercise with
  | some day, some ex =>
    if jsTrim sets = "" ∨ jsTrim reps = "" then RecordOutcome.invalid
    else
      RecordOutcome.saved (recordPerformance history
        ("week" ++ toString currentWeek) day ex.id
        { date := now, sets := parseIntF sets, reps := parseIntF reps,
          weight := if weight = "" then 0 else parseFloatF weight,
          notes := notes })
  | _, _ => RecordOutcome.invalid

/-- Entry list of one (week, day, exercise) triple of a history, an
absent key at any level read as empty. -/
def entriesAt (history : History) (weekKey dayKey exerciseId : String) :
    List Performance :=
  (getKey ((getKey ((getKey history weekKey).getD []) dayKey).getD [])
    exerciseId).getD []

/-- Store level view of recordPerformance: the program state variable is
not touched by the handler. -/
def recordPerformanceOnStore (s : Store) (weekKey dayKey exerciseId : String)
    (performance : Performance) : Store :=
  { program := s.program,
    history := recordPerformance s.history weekKey dayKey exerciseId performance }

/-- Store level view of removeExercise on its success path: the history
state variable is not touched by the handler. -/
def removeExerciseOnStore (s : Store) (selectedDay : Option String)
    (exerciseId : String) : Store :=
  match removeExercise selectedDay exerciseId s.program with
  | RemoveOutcome.saved p => { program := p, history := s.history }
  | _ => s

/-- Program visible in memory after addExercise together with the
persistence failure alert flag, as a function of whether the
AsyncStorage.setItem call inside saveProgram succeeded.  saveProgram
calls setProgram only after a successful write and shows an alert in
its catch branch, so on failure the program state variable keeps its
old top level object.  The updated program is built as an object spread
copy of the old one, which shares the per day arrays: the edit branch
assigns the name field of an element of a shared array and the add
branch pushes onto a shared array, so in both branches the content
reachable from the OLD object already equals the updated program even
when setProgram never runs.  The visible program therefore equals the
saved program whether or not the write succeeded. -/
def addExerciseAndSave (saveOk : Bool) (exerciseName : String)
    (selectedDay : Option String) (editingExerciseId : Option String)
    (newId : String) (program : Program) : Program × Bool :=
  match addExercise exerciseName selectedDay editingExerciseId newId program with
  | AddOutcome.saved p => (p, !saveOk)
  | _ => (program, false)

/-- Program visible in memory after removeExercise together with the
persistence failure alert flag.  Unlike addExercise, removeExercise
builds a FRESH filtered array and installs it only on the object spread
copy; the old top level object and its arrays are untouched.  Since
setProgram runs only on a successful write, on failure the visible
program is the unchanged original. -/
def removeExerciseAndSave (saveOk : Bool) (selectedDay : Option String)
    (exerciseId : String) (program : Program) : Program × Bool :=
  match removeExercise selectedDay exerciseId program with
  | RemoveOutcome.saved p => (if saveOk then p else program, !saveOk)
  | _ => (program, false)

/-- History visible in memory after the core of recordPerformance
together with the persistence failure alert flag.  The updated history
is an object spread copy of the old one.  When the week key already
exists, the week object is shared with the old history and the day and
exercise levels are created and pushed on that shared object, so the
change is reachable from the old history state even when setHistory
never runs.  When the week key is absent, the whole new chain hangs
only off the copy, and on a failed write the old history is unchanged. -/
def recordPerformanceAndSave (saveOk : Bool) (history : History)
    (weekKey dayKey exerciseId : String) (performance : Performance) :
    History × Bool :=
  (if saveOk || (getKey history weekKey).isSome
    then recordPerformance history weekKey dayKey exerciseId performance
    else history,
   !saveOk)

/-- Entry list of one (day, exercise) pair inside one week object, an
absent key read as empty. -/
def dayEntries (week : WeekHistory) (dayKey exerciseId : String) :
    List Performance :=
  (getKey ((getKey week dayKey).getD []) exerciseId).getD []

/-- Inner loop of getLastPerformance: scan the day keys of one week
object in stored order and return the last element of the first
nonempty entry list found for the exercise id. -/
def scanDays (week : WeekHistory) (exerciseId : String) :
    List String → Option Performance
  | [] => none
  | dayKey :: rest =>
    if (dayEntries week dayKey exerciseId).isEmpty
      then scanDays week exerciseId rest
      else (dayEntries week dayKey exerciseId).getLast?

/-- Outer loop of getLastPerformance: walk the given week key list,
read each week object from the history (a key drawn from Object.keys
always succeeds; an absent key is read as an empty week) and return the
first result produced by the inner day scan. -/
def scanWeeks (history : History) (exerciseId : String) :
    List String → Option Performance
  | [] => none
  | weekKey :: rest =>
    match
      scanDays ((getKey history weekKey).getD []) exerciseId
        (keys ((getKey history weekKey).getD [])) with
    | some p => some p
    | none => scanWeeks history exerciseId rest

/-- Model of getLastPerformance: scan the week keys in descending
lexical sort order and within each week the day keys in stored order,
returning the last entry of the first nonempty entry list for the
exercise id, or none when no week and day holds one. -/
def getLastPerformance (history : History) (exerciseId : String) :
    Option Performance :=
  scanWeeks history exerciseId (sortedDesc (keys history))

/-- Specification side description of the scan order of
queryLastPerformance: all (week key, day key) pairs, the week keys in
descending lexical string sort order, and within each week the day keys
in structural (stored) order. -/
def weekDayPairs (history : History) : List (String × String) :=
  (sortedDesc (keys history)).flatMap
    (fun wk => (keys ((getKey history wk).getD [])).map (fun dk => (wk, dk)))

/-- Specification side description of queryLastPerformance, following
the words of the specification: the first (week, day) pair in scan
order whose entry list for the exercise id is nonempty contributes the
last element of that list; absent when no pair qualifies. -/
def getLastPerformanceSpec (history : History) (exerciseId : String) :
    Option Performance :=
  match
    (weekDayPairs history).find?
      (fun q => !(entriesAt history q.1 q.2 exerciseId).isEmpty) with
  | some q => (entriesAt history q.1 q.2 exerciseId).getLast?
  | none => none

/-- Observable content of the renderWeekHistory view: either the empty
state placeholder shown when the selected week has no history object,
or the list of rendered day blocks, each a weekday name with the list
of rendered exercise rows (shown name and last entry of that days
entry list; the last entry is an Option because the source indexes the
array at length minus one, which only denotes an entry when the list
is nonempty). -/
inductive WeekHistoryView where
  | emptyState
  | summary (rows : List (String × List (String × Option Performance)))
deriving DecidableEq

/-- Name shown for an exercise id in the history view: the source reads
program[day]?.find(...)?.name and falls back to the placeholder string
when the chain is undefined OR when the found name is falsy, so an
empty stored name also yields the placeholder. -/
def exerciseNameShown (program : Program) (day id : String) : String :=
  match ((getKey program day).getD []).find? (fun ex => ex.id == id) with
  | some ex => if ex.name = "" then "Unknown Exercise" else ex.name
  | none => "Unknown Exercise"

/-- Model of renderWeekHistory: for the viewed week key, walk the fixed
weekday list, skip a weekday whose day object is absent or has no
exercise ids, and render for each remaining weekday one row per stored
exercise id, pairing the shown name with the last element of the entry
list. -/
def renderWeekHistory (program : Program) (history : History)
    (currentWeek : ℕ) : WeekHistoryView :=
  match getKey history ("week" ++ toString currentWeek) with
  | none => WeekHistoryView.emptyState
  | some week =>
    WeekHistoryView.summary (weekdays.filterMap (fun day =>
      match getKey week day with
      | none => none
      | some dayData =>
        if (keys dayData).isEmpty then none
        else
          some (day, (keys dayData).map (fun id =>
            (exerciseNameShown program day id,
             ((getKey dayData id).getD []).getLast?)))))

/-- Name resolution as the specification states it: the current Program
name of the exercise id under that day, or the placeholder label when
the exercise has been deleted. -/
def resolveNameSpec (program : Program) (day id : String) : String :=
  match ((getKey program day).getD []).find? (fun ex => ex.id == id) with
  | some ex => ex.name
  | none => "Unknown Exercise"

/-- Week summary as the specification states it: none when the week key
is absent; otherwise, for each weekday that has any recorded exercise
ids that week (weekdays with none are omitted), each id resolved to its
current Program name or the placeholder, paired with the last entry of
that days entry list for that id. -/
def weekSummarySpec (program : Program) (history : History)
    (currentWeek : ℕ) :
    Option (List (String × List (String × Option Performance))) :=
  match getKey history ("week" ++ toString currentWeek) with
  | none => none
  | some week =>
    some ((weekdays.filter
        (fun day => !(keys ((getKey week day).getD [])).isEmpty)).map
      (fun day => (day, (keys ((getKey week day).getD [])).map (fun id =>
        (resolveNameSpec program day id,
         ((getKey ((getKey week day).getD []) id).getD []).getLast?)))))

/-- Helper for C4 and C10: one recordPerformance call appends exactly
the new entry at the end of the target entry list. -/
theorem recordPerformance_entriesAt_target (history : History)
    (weekKey dayKey exerciseId : String) (p : Performance) :
    entriesAt (recordPerformance history weekKey dayKey exerciseId p)
        weekKey dayKey exerciseId
      = entriesAt history weekKey dayKey exerciseId ++ [p] := by
  simp [recordPerformance, entriesAt, getKey_setKey_self]

/-- C4: recordPerformance lazily creates the week, day and exercise id
chain (an absent level is read as empty, not an error) and appends
exactly one entry at the end of the target entry list, so a first call
on an empty chain yields a one element list and a second call for the
same triple yields a two element list in call order; entries are never
deduplicated, merged or capped. -/
theorem c4_recordPerformance_appends (history : History)
    (weekKey dayKey exerciseId : String) (p₁ p₂ : Performance) :
    entriesAt (recordPerformance history weekKey dayKey exerciseId p₁)
        weekKey dayKey exerciseId
      = entriesAt history weekKey dayKey exerciseId ++ [p₁] ∧
    (entriesAt history weekKey dayKey exerciseId = [] →
      entriesAt (recordPerformance history weekKey dayKey exerciseId p₁)
          weekKey dayKey exerciseId = [p₁]) ∧
    entriesAt
        (recordPerformance
          (recordPerformance history weekKey dayKey exerciseId p₁)
          weekKey dayKey exerciseId p₂)
        weekKey dayKey exerciseId
      = entriesAt history weekKey dayKey exerciseId ++ [p₁, p₂] := by
  refine ⟨recordPerformance_entriesAt_target _ _ _ _ _, ?_, ?_⟩
  · intro h
    rw [recordPerformance_entriesAt_target, h]
    rfl
  · rw [recordPerformance_entriesAt_target, recordPerformance_entriesAt_target,
      List.append_assoc]
    rfl

/-- Witness for C4 at a concrete input. -/
theorem c4_witness :
    entriesAt
        (recordPerformance [] "week1" "Monday" "1"
          { date := "d", sets := 3, reps := 5, weight := 0, notes := "" })
        "week1" "Monday" "1"
      = [{ date := "d", sets := 3, reps := 5, weight := 0, notes := "" }] :=
  (c4_recordPerformance_appends [] "week1" "Monday" "1"
      { date := "d", sets := 3, reps := 5, weight := 0, notes := "" }
      { date := "d", sets := 3, reps := 5, weight := 0, notes := "" }).2.1 rfl

/-- C10: a successful recordPerformance leaves the program state
variable unchanged, leaves the entry list of every other (week, day,
exercise) triple unchanged, and extends the target triple by appending
the new entry, so the old entries remain at the front of the new list. -/
theorem c10_recordPerformance_frame (s : Store)
    (weekKey dayKey exerciseId : String) (p : Performance) :
    (recordPerformanceOnStore s weekKey dayKey exerciseId p).program
      = s.program ∧
    (∀ wk dk ex, ¬(wk = weekKey ∧ dk = dayKey ∧ ex = exerciseId) →
      entriesAt (recordPerformanceOnStore s weekKey dayKey exerciseId p).history
          wk dk ex
        = entriesAt s.history wk dk ex) ∧
    entriesAt (recordPerformanceOnStore s weekKey dayKey exerciseId p).history
        weekKey dayKey exerciseId
      = entriesAt s.history weekKey dayKey exerciseId ++ [p] := by
  refine ⟨rfl, ?_, recordPerformance_entriesAt_target _ _ _ _ _⟩
  intro wk dk ex hne
  by_cases hwk : wk = weekKey
  · subst hwk
    by_cases hdk : dk = dayKey
    · subst hdk
      have hex : ex ≠ exerciseId := by tauto
      simp [recordPerformanceOnStore, recordPerformance, entriesAt,
        getKey_setKey_self, getKey_setKey_ne hex]
    · simp [recordPerformanceOnStore, recordPerformance, entriesAt,
        getKey_setKey_self, getKey_setKey_ne hdk]
  · simp [recordPerformanceOnStore, recordPerformance, entriesAt,
      getKey_setKey_ne hwk]

/-- Witness for C10 at a concrete input. -/
theorem c10_witness :
    entriesAt
        (recordPerformanceOnStore
          ⟨[("Monday", [⟨"1", "Squat"⟩])],
           [("week1", [("Monday", [("2", [])])])]⟩
          "week1" "Monday" "1"
          { date := "d", sets := 3, reps := 5, weight := 0, notes := "" }).history
        "week1" "Monday" "2"
      = entriesAt [("week1", [("Monday", [("2", [])])])] "week1" "Monday" "2" :=
  (c10_recordPerformance_frame
      ⟨[("Monday", [⟨"1", "Squat"⟩])], [("week1", [("Monday", [("2", [])])])]⟩
      "week1" "Monday" "1"
      { date := "d", sets := 3, reps := 5, weight := 0, notes := "" }).2.1
    "week1" "Monday" "2" (by decide)

/-- C7: the computed week number equals the specification formula with
daysSinceJan1 read as the exact fractional number of days elapsed since
January 1, and on every instant of a January 1 that falls on a
Wednesday (weekday offset 3) the computed week number is 1. -/
theorem c7_weekNumber (msSinceJan1 jan1Weekday : ℕ) :
    getCurrentWeekNumber msSinceJan1 jan1Weekday
      = weekNumberFormula ((msSinceJan1 : ℚ) / 86400000) jan1Weekday ∧
    (msSinceJan1 < 86400000 → getCurrentWeekNumber msSinceJan1 3 = 1) := by
  constructor
  · rfl
  · intro h
    have h1 : (msSinceJan1 : ℚ) / 86400000 < 1 := by
      rw [div_lt_one (by norm_num)]
      exact_mod_cast h
    have h0 : (0 : ℚ) ≤ (msSinceJan1 : ℚ) / 86400000 := by positivity
    unfold getCurrentWeekNumber
    rw [Int.ceil_eq_iff]
    constructor
    · push_cast
      linarith
    · push_cast
      linarith

/-- Witness for C7 at a concrete input: midnight of such a January 1. -/
theorem c7_witness : getCurrentWeekNumber 0 3 = 1 :=
  (c7_weekNumber 0 3).2 (by norm_num)

/-- C8: on a first run with no saved program blob, loadData builds a
program holding exactly the seven weekday keys Monday through Sunday,
each bound to an empty list, and writes this default during
initialization (before any store operation can run); likewise an
absent history blob leaves the in-memory history empty and writes the
empty history during initialization. -/
theorem c8_loadData :
    (∀ savedHistory : Option History,
      (loadData none savedHistory).1 = defaultProgram ∧
      keys (loadData none savedHistory).1 = weekdays ∧
      (∀ day ∈ weekdays, getKey (loadData none savedHistory).1 day = some []) ∧
      ("workoutProgram", Blob.progBlob defaultProgram)
        ∈ (loadData none savedHistory).2.2) ∧
    (∀ savedProgram : Option Program,
      (loadData savedProgram none).2.1 = [] ∧
      ("workoutHistory", Blob.histBlob []) ∈ (loadData savedProgram none).2.2) := by
  constructor
  · intro sh
    cases sh with
    | none => exact ⟨rfl, rfl, by decide, by decide⟩
    | some h =>
      refine ⟨rfl, rfl, ?_, ?_⟩
      · show ∀ day ∈ weekdays, getKey defaultProgram day = some []
        decide
      · show ("workoutProgram", Blob.progBlob defaultProgram)
            ∈ [("workoutProgram", Blob.progBlob defaultProgram)]
        decide
  · intro sp
    cases sp with
    | none => exact ⟨rfl, by decide⟩
    | some p =>
      refine ⟨rfl, ?_⟩
      show ("workoutHistory", Blob.histBlob [])
          ∈ [("workoutHistory", Blob.histBlob [])]
      decide

/-- Witness for C8 at a concrete input: both blobs absent. -/
theorem c8_witness :
    (loadData none none).1 = defaultProgram ∧
    getKey (loadData none none).1 "Wednesday" = some [] ∧
    ("workoutHistory", Blob.histBlob []) ∈ (loadData none none).2.2 :=
  ⟨(c8_loadData.1 none).1, (c8_loadData.1 none).2.2.1 "Wednesday" (by decide),
    (c8_loadData.2 none).2⟩

/-- C6: a failed user input precondition makes the handler return
through its validation guard: an alert is shown, no program or history
state is mutated and no storage write is attempted (the invalid outcome
of both handlers).  For addOrEditExercise the precondition fails when
the trimmed name is empty or no day is selected; for recordPerformance
when the trimmed sets or reps field is empty, no day is selected or no
exercise is open. -/
theorem c6_validationGuards (exerciseName : String) (selectedDay : Option String)
    (editingExerciseId : Option String) (newId : String) (program : Program)
    (parseIntF : String → Int) (parseFloatF : String → Rat)
    (sets reps weight notes : String) (perfDay : Option String)
    (currentExercise : Option Exercise) (currentWeek : ℕ) (now : String)
    (history : History) :
    ((jsTrim exerciseName = "" ∨ selectedDay = none) →
      addExercise exerciseName selectedDay editingExerciseId newId program
        = AddOutcome.invalid) ∧
    ((jsTrim sets = "" ∨ jsTrim reps = "" ∨ perfDay = none ∨ currentExercise = none) →
      recordPerformanceSubmit parseIntF parseFloatF sets reps weight notes
          perfDay currentExercise currentWeek now history
        = RecordOutcome.invalid) := by
  constructor
  · intro h
    cases selectedDay with
    | none => rfl
    | some day =>
      rcases h with h | h
      · simp [addExercise, h]
      · exact absurd h (by simp)
  · intro h
    cases perfDay with
    | none => rfl
    | some day =>
      cases currentExercise with
      | none => rfl
      | some ex =>
        rcases h with h | h | h | h
        · simp [recordPerformanceSubmit, h]
        · simp [recordPerformanceSubmit, h]
        · exact absurd h (by simp)
        · exact absurd h (by simp)

/-- Witness for C6 at concrete inputs: a whitespace only exercise name
and an empty sets field. -/
theorem c6_witness :
    addExercise "   " (some "Monday") none "9" [("Monday", [])]
        = AddOutcome.invalid ∧
    recordPerformanceSubmit (fun _ => 0) (fun _ => 0) "" "5" "" ""
        (some "Monday") (some ⟨"1", "Squat"⟩) 1 "d" []
        = RecordOutcome.invalid :=
  ⟨(c6_validationGuards "   " (some "Monday") none "9" [("Monday", [])]
      (fun _ => 0) (fun _ => 0) "" "5" "" "" (some "Monday")
      (some ⟨"1", "Squat"⟩) 1 "d" []).1 (Or.inl (by decide)),
   (c6_validationGuards "   " (some "Monday") none "9" [("Monday", [])]
      (fun _ => 0) (fun _ => 0) "" "5" "" "" (some "Monday")
      (some ⟨"1", "Squat"⟩) 1 "d" []).2 (Or.inl (by decide))⟩

/-- Helper: a successful findIndex points at an element satisfying the
predicate. -/
theorem findIndex_some {α : Type} {p : α → Bool} {l : List α} {i : ℕ}
    (h : findIndex p l = some i) : ∃ e, l[i]? = some e ∧ p e = true := by
  induction l generalizing i with
  | nil => simp [findIndex] at h
  | cons a rest ih =>
    by_cases hp : p a
    · rw [findIndex, if_pos hp] at h
      cases h
      exact ⟨a, by simp, hp⟩
    · rw [findIndex, if_neg (by simp [hp])] at h
      cases hfi : findIndex p rest with
      | none =>
        rw [hfi] at h
        simp at h
      | some j =>
        rw [hfi] at h
        injection h with h
        subst h
        obtain ⟨e, he, hpe⟩ := ih hfi
        exact ⟨e, by simpa using he, hpe⟩

/-- C3 counterexample: with a day selected, a valid name and an editing
id that matches no exercise under the day, the handler saves the
program unchanged; the claim instead demands that a fresh exercise
(here it would be the one built from the generated id 99) be appended
to the days sequence. -/
theorem c3_counterexample :
    addExercise "Squat" (some "Monday") (some "zz") "99" [("Monday", [])]
        = AddOutcome.saved [("Monday", [])] ∧
    AddOutcome.saved ([("Monday", [])] : Program)
      ≠ AddOutcome.saved
          (setKey [("Monday", [])] "Monday"
            ([] ++ [⟨"99", "Squat"⟩])) := by
  constructor
  · decide
  · decide

/-- C3 amended: with a valid name and a present day, addExercise with
no editing id appends a fresh exercise carrying the generated id at the
end of the days sequence; with an editing id that matches an exercise
it renames exactly that exercise in place, keeping its id, its index
and every other entry of the sequence; with an editing id that matches
nothing it saves the program unchanged (it does not append). -/
theorem c3_addExercise_behavior (program : Program)
    (day exerciseName newId : String) (dayList : List Exercise)
    (hday : getKey program day = some dayList)
    (hname : jsTrim exerciseName ≠ "") :
    (addExercise exerciseName (some day) none newId program
        = AddOutcome.saved (setKey program day
            (dayList ++ [⟨newId, exerciseName⟩]))) ∧
    (∀ editingId, findIndex (fun ex => ex.id == editingId) dayList = none →
        addExercise exerciseName (some day) (some editingId) newId program
          = AddOutcome.saved program) ∧
    (∀ editingId i,
        findIndex (fun ex => ex.id == editingId) dayList = some i →
        ∃ e, dayList[i]? = some e ∧ e.id = editingId ∧
          addExercise exerciseName (some day) (some editingId) newId program
            = AddOutcome.saved (setKey program day
                (List.modify (fun ex => { ex with name := exerciseName }) i dayList)) ∧
          (List.modify (fun ex => { ex with name := exerciseName }) i dayList)[i]?
            = some ⟨e.id, exerciseName⟩ ∧
          (∀ j, j ≠ i →
            (List.modify (fun ex => { ex with name := exerciseName }) i dayList)[j]?
              = dayList[j]?) ∧
          (List.modify (fun ex => { ex with name := exerciseName }) i dayList).length
            = dayList.length) := by
  refine ⟨?_, ?_, ?_⟩
  · simp [addExercise, hday, hname]
  · intro editingId hmiss
    simp [addExercise, hday, hname, hmiss]
  · intro editingId i hidx
    obtain ⟨e, he, hpe⟩ := findIndex_some hidx
    have heid : e.id = editingId := by simpa using hpe
    refine ⟨e, he, heid, ?_, ?_, ?_, ?_⟩
    · simp [addExercise, hday, hname, hidx]
    · rw [List.getElem?_modify, he]
      simp
    · intro j hj
      rw [List.getElem?_modify]
      cases dayList[j]? with
      | none => rfl
      | some a => simp [Ne.symm hj]
    · exact List.length_modify _ _ _

/-- Witness for C3 at a concrete input: renaming the second of two
exercises changes only its name. -/
theorem c3_witness :
    addExercise "Deadlift" (some "Monday") (some "2") "99"
        [("Monday", [⟨"1", "Squat"⟩, ⟨"2", "Bench"⟩])]
      = AddOutcome.saved [("Monday", [⟨"1", "Squat"⟩, ⟨"2", "Deadlift"⟩])] := by
  have h :=
    (c3_addExercise_behavior [("Monday", [⟨"1", "Squat"⟩, ⟨"2", "Bench"⟩])]
        "Monday" "Deadlift" "99" [⟨"1", "Squat"⟩, ⟨"2", "Bench"⟩]
        rfl (by decide)).2.2 "2" 1 (by decide)
  obtain ⟨e, he, hid, heq, hrest⟩ := h
  rw [heq]
  decide

/-- C2 counterexample: removing the only exercise of Monday while the
storage write fails surfaces the error (the alert flag is set) but the
in-memory program is the unchanged original, not the program reflecting
the attempted change (Monday emptied), falsifying the claim that every
mutation leaves the attempted change in memory on a failed save. -/
theorem c2_counterexample :
    removeExercise (some "Monday") "1" [("Monday", [⟨"1", "Squat"⟩])]
        = RemoveOutcome.saved [("Monday", [])] ∧
    removeExerciseAndSave false (some "Monday") "1"
        [("Monday", [⟨"1", "Squat"⟩])]
      = ([("Monday", [⟨"1", "Squat"⟩])], true) ∧
    ([("Monday", [⟨"1", "Squat"⟩])] : Program) ≠ [("Monday", [])] := by
  refine ⟨by decide, by decide, by decide⟩

/-- C2 amended: a failed save always surfaces the error alert and never
triggers a rollback, but the in-memory state reflects the attempted
change only where the handler mutated structures shared with the old
state: always for addOrEditExercise; for recordPerformance exactly when
the week key already existed; for removeExercise only when the save
succeeded, the in-memory program otherwise staying the original. -/
theorem c2_saveFailure_visibility (saveOk : Bool) (exerciseName : String)
    (selectedDay : Option String) (editingExerciseId : Option String)
    (newId : String) (program : Program) (remDay : Option String)
    (remId : String) (remProgram : Program) (history : History)
    (weekKey dayKey exerciseId : String) (p : Performance) :
    (∀ q, addExercise exerciseName selectedDay editingExerciseId newId program
        = AddOutcome.saved q →
      addExerciseAndSave saveOk exerciseName selectedDay editingExerciseId
          newId program = (q, !saveOk)) ∧
    (∀ q, removeExercise remDay remId remProgram = RemoveOutcome.saved q →
      removeExerciseAndSave saveOk remDay remId remProgram
        = (if saveOk then q else remProgram, !saveOk)) ∧
    ((getKey history weekKey).isSome →
      (recordPerformanceAndSave saveOk history weekKey dayKey exerciseId p).1
        = recordPerformance history weekKey dayKey exerciseId p) ∧
    (getKey history weekKey = none → saveOk = false →
      (recordPerformanceAndSave saveOk history weekKey dayKey exerciseId p).1
        = history) ∧
    (recordPerformanceAndSave saveOk history weekKey dayKey exerciseId p).2
      = !saveOk := by
  refine ⟨?_, ?_, ?_, ?_, rfl⟩
  · intro q hq
    simp [addExerciseAndSave, hq]
  · intro q hq
    simp [removeExerciseAndSave, hq]
  · intro hsome
    simp [recordPerformanceAndSave, hsome]
  · intro hnone hfail
    simp [recordPerformanceAndSave, hnone, hfail]

/-- Witness for C2 amended at concrete inputs: a failed save after an
append keeps the change visible, a failed save after a remove does not,
and a record into an existing week stays visible on a failed save. -/
theorem c2_witness :
    addExerciseAndSave false "Bench" (some "Monday") none "7" [("Monday", [])]
        = ([("Monday", [⟨"7", "Bench"⟩])], true) ∧
    removeExerciseAndSave false (some "Monday") "7"
        [("Monday", [⟨"7", "Bench"⟩])]
      = ([("Monday", [⟨"7", "Bench"⟩])], true) ∧
    (recordPerformanceAndSave false [("week1", [])] "week1" "Monday" "7"
        { date := "d", sets := 1, reps := 1, weight := 0, notes := "" }).1
      = recordPerformance [("week1", [])] "week1" "Monday" "7"
          { date := "d", sets := 1, reps := 1, weight := 0, notes := "" } := by
  refine ⟨?_, ?_, ?_⟩
  · exact (c2_saveFailure_visibility false "Bench" (some "Monday") none "7"
      [("Monday", [])] (some "Monday") "7" [("Monday", [⟨"7", "Bench"⟩])]
      [("week1", [])] "week1" "Monday" "7"
      { date := "d", sets := 1, reps := 1, weight := 0, notes := "" }).1
      [("Monday", [⟨"7", "Bench"⟩])] (by decide)
  · exact (c2_saveFailure_visibility false "Bench" (some "Monday") none "7"
      [("Monday", [])] (some "Monday") "7" [("Monday", [⟨"7", "Bench"⟩])]
      [("week1", [])] "week1" "Monday" "7"
      { date := "d", sets := 1, reps := 1, weight := 0, notes := "" }).2.1
      [("Monday", [])] (by decide)
  · exact (c2_saveFailure_visibility false "Bench" (some "Monday") none "7"
      [("Monday", [])] (some "Monday") "7" [("Monday", [⟨"7", "Bench"⟩])]
      [("week1", [])] "week1" "Monday" "7"
      { date := "d", sets := 1, reps := 1, weight := 0, notes := "" }).2.2.1
      (by decide)

/-- C5: removeExercise replaces the selected days list by the filter
keeping every exercise with a different id, which under unique ids
removes exactly the one matching entry (and is a no-op when none
matches) while keeping every other entry in its relative order, and it
leaves the history state variable entirely unchanged. -/
theorem c5_removeExercise (s : Store) (day exerciseId : String)
    (dayList : List Exercise) (hday : getKey s.program day = some dayList)
    (hnodup : (dayList.map Exercise.id).Nodup) :
    (removeExerciseOnStore s (some day) exerciseId).history = s.history ∧
    removeExercise (some day) exerciseId s.program
      = RemoveOutcome.saved (setKey s.program day
          (dayList.filter (fun ex => ex.id != exerciseId))) ∧
    ((∀ e ∈ dayList, e.id ≠ exerciseId) →
      dayList.filter (fun ex => ex.id != exerciseId) = dayList) ∧
    (∀ l₁ e l₂, dayList = l₁ ++ e :: l₂ → e.id = exerciseId →
      dayList.filter (fun ex => ex.id != exerciseId) = l₁ ++ l₂) := by
  refine ⟨?_, ?_, ?_, ?_⟩
  · simp [removeExerciseOnStore, removeExercise, hday]
  · simp [removeExercise, hday]
  · intro hmiss
    rw [List.filter_eq_self]
    intro e he
    simpa using hmiss e he
  · intro l₁ e l₂ hsplit heid
    subst hsplit
    subst heid
    rw [List.map_append, List.map_cons] at hnodup
    obtain ⟨h₁, h₂, hdisj⟩ := List.nodup_append.mp hnodup
    have hnotB : e.id ∉ l₂.map Exercise.id := (List.nodup_cons.mp h₂).1
    rw [List.filter_append]
    have hl₁ : l₁.filter (fun ex => ex.id != e.id) = l₁ := by
      rw [List.filter_eq_self]
      intro a ha
      have : a.id ≠ e.id := by
        intro hcontra
        have hmem : a.id ∈ l₁.map Exercise.id := List.mem_map_of_mem _ ha
        have := hdisj hmem
        simp [hcontra] at this
      simpa using this
    have hl₂ : l₂.filter (fun ex => ex.id != e.id) = l₂ := by
      rw [List.filter_eq_self]
      intro a ha
      have : a.id ≠ e.id := by
        intro hcontra
        exact hnotB (hcontra ▸ List.mem_map_of_mem _ ha)
      simpa using this
    rw [hl₁, List.filter_cons]
    simp [hl₂]

/-- Witness for C5 at a concrete input: removing one of two exercises
keeps the other and leaves the history untouched. -/
theorem c5_witness :
    (removeExerciseOnStore
        ⟨[("Monday", [⟨"1", "Squat"⟩, ⟨"2", "Bench"⟩])],
         [("week1", [("Monday", [("1", [])])])]⟩
        (some "Monday") "1").history
      = [("week1", [("Monday", [("1", [])])])] ∧
    ([⟨"1", "Squat"⟩, ⟨"2", "Bench"⟩] : List Exercise).filter
        (fun ex => ex.id != "1") = [⟨"2", "Bench"⟩] := by
  have h := c5_removeExercise
    ⟨[("Monday", [⟨"1", "Squat"⟩, ⟨"2", "Bench"⟩])],
     [("week1", [("Monday", [("1", [])])])]⟩
    "Monday" "1" [⟨"1", "Squat"⟩, ⟨"2", "Bench"⟩] rfl (by decide)
  exact ⟨h.1, h.2.2.2 [] ⟨"1", "Squat"⟩ [⟨"2", "Bench"⟩] rfl rfl⟩

/-- Helper: the entry list of a triple equals the entry list of the
pair inside the week object read for the week key. -/
theorem entriesAt_eq_dayEntries (history : History) (wk dk exerciseId : String) :
    entriesAt history wk dk exerciseId
      = dayEntries ((getKey history wk).getD []) dk exerciseId := rfl

/-- Helper for C1: the inner day scan returns the last element of the
entry list of the first day key whose entry list is nonempty. -/
theorem scanDays_eq (week : WeekHistory) (exerciseId : String)
    (dks : List String) :
    scanDays week exerciseId dks
      = match dks.find? (fun dk => !(dayEntries week dk exerciseId).isEmpty) with
        | some dk => (dayEntries week dk exerciseId).getLast?
        | none => none := by
  induction dks with
  | nil => rfl
  | cons dk rest ih =>
    cases hemp : (dayEntries week dk exerciseId).isEmpty with
    | true =>
      rw [scanDays, if_pos hemp, ih,
        List.find?_cons_of_neg _ (by simp [hemp])]
    | false =>
      rw [scanDays, if_neg (by simp [hemp]),
        List.find?_cons_of_pos _ (by simp [hemp])]

/-- Helper for C1: the full scan over an arbitrary week key list equals
the first-nonempty-pair description over the pairs generated from that
list. -/
theorem scanWeeks_eq_spec (history : History) (exerciseId : String)
    (wks : List String) :
    scanWeeks history exerciseId wks
      = match
          (wks.flatMap (fun wk =>
            (keys ((getKey history wk).getD [])).map (fun dk => (wk, dk)))).find?
            (fun q => !(entriesAt history q.1 q.2 exerciseId).isEmpty) with
        | some q => (entriesAt history q.1 q.2 exerciseId).getLast?
        | none => none := by
  induction wks with
  | nil => rfl
  | cons wk rest ih =>
    rw [scanWeeks, List.flatMap_cons, List.find?_append, List.find?_map]
    have hcomp :
        ((fun q : String × String =>
            !(entriesAt history q.1 q.2 exerciseId).isEmpty)
          ∘ (fun dk => (wk, dk)))
        = fun dk =>
            !(dayEntries ((getKey history wk).getD []) dk exerciseId).isEmpty :=
      rfl
    rw [hcomp]
    have hscan :=
      scanDays_eq ((getKey history wk).getD []) exerciseId
        (keys ((getKey history wk).getD []))
    cases hfind :
        List.find?
          (fun dk =>
            !(dayEntries ((getKey history wk).getD []) dk exerciseId).isEmpty)
          (keys ((getKey history wk).getD [])) with
    | none =>
      have hscan2 : scanDays ((getKey history wk).getD []) exerciseId
          (keys ((getKey history wk).getD [])) = none := by
        rw [hscan, hfind]
      rw [hscan2]
      simpa using ih
    | some dk =>
      have hscan2 : scanDays ((getKey history wk).getD []) exerciseId
          (keys ((getKey history wk).getD []))
          = (dayEntries ((getKey history wk).getD []) dk exerciseId).getLast? := by
        rw [hscan, hfind]
      have hpred := List.find?_some hfind
      have hne : dayEntries ((getKey history wk).getD []) dk exerciseId ≠ [] := by
        simpa [List.isEmpty_iff] using hpred
      obtain ⟨last, hlast⟩ :=
        Option.isSome_iff_exists.mp (List.getLast?_isSome.mpr hne)
      rw [hscan2, hlast]
      simp [entriesAt_eq_dayEntries, hlast]

/-- C1: getLastPerformance scans the week keys in descending lexical
string sort order (week3 is visited before week12) and within each
week the day keys in stored order, returning the last element of the
entry list of the first (week, day) pair whose list for the exercise
id is nonempty, and none when no week and day holds an entry for it. -/
theorem c1_getLastPerformance (history : History) (exerciseId : String) :
    getLastPerformance history exerciseId
      = getLastPerformanceSpec history exerciseId ∧
    ((∀ wk dk, entriesAt history wk dk exerciseId = []) →
      getLastPerformance history exerciseId = none) ∧
    sortedDesc ["week12", "week3"] = ["week3", "week12"] := by
  refine ⟨scanWeeks_eq_spec history exerciseId (sortedDesc (keys history)),
    ?_, by decide⟩
  intro hempty
  show scanWeeks history exerciseId (sortedDesc (keys history)) = none
  rw [scanWeeks_eq_spec]
  have hnone :
      List.find?
        (fun q => !(entriesAt history q.1 q.2 exerciseId).isEmpty)
        ((sortedDesc (keys history)).flatMap (fun wk =>
          (keys ((getKey history wk).getD [])).map (fun dk => (wk, dk))))
      = none := by
    rw [List.find?_eq_none]
    intro q hq
    simp [hempty q.1 q.2]
  rw [hnone]

/-- Witness for C1 at a concrete input: an entry stored under week3 is
found before one stored under week12 even though the history lists
week12 first, and an unknown id yields none. -/
theorem c1_witness :
    getLastPerformance
        [("week12", [("Monday",
            [("1", [{ date := "a", sets := 1, reps := 1, weight := 0,
                      notes := "" }])])]),
         ("week3", [("Tuesday",
            [("1", [{ date := "b", sets := 2, reps := 2, weight := 0,
                      notes := "" }])])])]
        "1"
      = getLastPerformanceSpec
          [("week12", [("Monday",
              [("1", [{ date := "a", sets := 1, reps := 1, weight := 0,
                        notes := "" }])])]),
           ("week3", [("Tuesday",
              [("1", [{ date := "b", sets := 2, reps := 2, weight := 0,
                        notes := "" }])])])]
          "1" ∧
    getLastPerformance ([] : History) "1" = none :=
  ⟨(c1_getLastPerformance _ "1").1,
   (c1_getLastPerformance ([] : History) "1").2.1 (fun _ _ => rfl)⟩

/-- Helper: a filterMap whose function acts as a guarded map equals the
map over the filtered list. -/
theorem filterMap_eq_filter_map {α β : Type} (f : α → Option β) (q : α → Bool)
    (g : α → β) (hf : ∀ a, f a = if q a then some (g a) else none)
    (l : List α) : l.filterMap f = (l.filter q).map g := by
  induction l with
  | nil => rfl
  | cons a rest ih =>
    rw [List.filterMap_cons, List.filter_cons, hf a]
    cases hq : q a with
    | true => simp [ih]
    | false => simp [ih]

/-- Helper for C9: when every name stored under the day is nonempty,
the shown name agrees with the specification side resolution. -/
theorem exerciseNameShown_eq_resolve (program : Program) (day id : String)
    (hnames : ∀ ex ∈ (getKey program day).getD [], ex.name ≠ "") :
    exerciseNameShown program day id = resolveNameSpec program day id := by
  unfold exerciseNameShown resolveNameSpec
  cases hfind : ((getKey program day).getD []).find? (fun ex => ex.id == id) with
  | none => rfl
  | some ex =>
    have hmem : ex ∈ (getKey program day).getD [] :=
      List.mem_of_find?_eq_some hfind
    simp [hnames ex hmem]

/-- C9 counterexample: an exercise that still exists under Monday but
whose stored name is the empty string renders with the placeholder
label, while the claim resolves it to its current Program name (the
empty string); the two summaries differ at this input. -/
theorem c9_counterexample :
    renderWeekHistory [("Monday", [⟨"1", ""⟩])]
        [("week1", [("Monday",
          [("1", [{ date := "d", sets := 1, reps := 1, weight := 0,
                    notes := "" }])])])] 1
      = WeekHistoryView.summary
          [("Monday", [("Unknown Exercise",
            some { date := "d", sets := 1, reps := 1, weight := 0,
                   notes := "" })])] ∧
    weekSummarySpec [("Monday", [⟨"1", ""⟩])]
        [("week1", [("Monday",
          [("1", [{ date := "d", sets := 1, reps := 1, weight := 0,
                    notes := "" }])])])] 1
      = some [("Monday", [("",
          some { date := "d", sets := 1, reps := 1, weight := 0,
                 notes := "" })])] ∧
    ("Unknown Exercise" : String) ≠ "" := by
  refine ⟨by decide, by decide, by decide⟩

/-- C9 amended: provided every exercise name stored in the program is
nonempty (which the add and edit guard enforces), the rendered week
history matches the specification summary exactly: the empty state when
the week key is absent, and otherwise one block per weekday holding any
recorded exercise ids that week (weekdays with none are omitted), each
id resolved to its current Program name or the placeholder when
deleted, paired with the last entry of that days entry list. -/
theorem c9_renderWeekHistory (program : Program) (history : History)
    (currentWeek : ℕ)
    (hnames : ∀ day, ∀ ex ∈ (getKey program day).getD [], ex.name ≠ "") :
    renderWeekHistory program history currentWeek
      = match weekSummarySpec program history currentWeek with
        | none => WeekHistoryView.emptyState
        | some rows => WeekHistoryView.summary rows := by
  unfold renderWeekHistory weekSummarySpec
  cases hwk : getKey history ("week" ++ toString currentWeek) with
  | none => rfl
  | some week =>
    refine congrArg WeekHistoryView.summary ?_
    apply filterMap_eq_filter_map
    intro day
    have hshown : ∀ id, exerciseNameShown program day id
        = resolveNameSpec program day id :=
      fun id => exerciseNameShown_eq_resolve program day id (hnames day)
    cases hday : getKey week day with
    | none => simp [hday, keys]
    | some dayData =>
      cases hkeys : (keys dayData).isEmpty with
      | true => simp [hday, hkeys]
      | false => simp [hday, hkeys, hshown]

/-- Witness for C9 at a concrete input with a nonempty stored name. -/
theorem c9_witness :
    renderWeekHistory [("Monday", [⟨"1", "Squat"⟩])]
        [("week1", [("Monday",
          [("1", [{ date := "d", sets := 1, reps := 1, weight := 0,
                    notes := "" }])])])] 1
      = WeekHistoryView.summary
          [("Monday", [("Squat",
            some { date := "d", sets := 1, reps := 1, weight := 0,
                   notes := "" })])] := by
  have hnames : ∀ day, ∀ ex ∈ (getKey [("Monday", [⟨"1", "Squat"⟩])] day).getD
      ([] : List Exercise), ex.name ≠ "" := by
    intro day ex hmem
    by_cases hd : ("Monday" : String) = day
    · simp [getKey, hd] at hmem
      rw [hmem]
      decide
    · simp [getKey, hd] at hmem
  have h := c9_renderWeekHistory [("Monday", [⟨"1", "Squat"⟩])]
    [("week1", [("Monday",
      [("1", [{ date := "d", sets := 1, reps := 1, weight := 0,
                notes := "" }])])])] 1 hnames
  rw [h]
  decide

end Workout
